import Mathlib

/-!
Shallow embedding of the DGM digit-recognition demo
(`demos/Demo ICR.cpp`) and of the random-number facility
(`modules/DGM/Random.h`).

Neurons carry one activation value and a row of outgoing weights
(`DirectGraphicalModels::dnn::CNeuron`); layers are ordered lists of
neurons.  C++ `float`/`double` arithmetic is modelled over the reals.
Indexed loops writing through a vector become `mapIdxFrom`, an
index-aware map; raw-array reads become `List.getD` with default `0`
(the claims only concern in-range indices).
-/

/-- A neuron of the demo network: one scalar activation value and an
ordered row of outgoing weights (one per neuron of the next layer). -/
structure CNeuron where
  value : ℝ
  weights : List ℝ

instance : Inhabited CNeuron := ⟨⟨0, []⟩⟩

/-- `getWeight(j)`: index into the outgoing weight row.  The C++ code does
not bounds-check; out-of-range reads are modelled as `0`. -/
def CNeuron.getWeight (n : CNeuron) (j : ℕ) : ℝ :=
  n.weights.getD j 0

/-- `applySigmoidFunction` from the demo: `1 / (1 + exp(-val))`. -/
noncomputable def applySigmoidFunction (val : ℝ) : ℝ :=
  1 / (1 + Real.exp (-val))

/-- Index-aware map starting at index `k`: models a C++ loop
`for (j = k; ...; j++) out[j] = f(j, in[j])`. -/
def mapIdxFrom (f : ℕ → α → β) (k : ℕ) : List α → List β
  | [] => []
  | a :: l => f k a :: mapIdxFrom f (k + 1) l

/-- Index-aware map from index `0`. -/
def mapWithIndex (f : ℕ → α → β) (l : List α) : List β :=
  mapIdxFrom f 0 l

/-- `dotProd(vpLayerA, vpLayerB)`: for every index `i` of layer B,
accumulate `Σ a.getWeight(i) * a.value` over the neurons `a` of layer A,
apply the sigmoid, and store it as B's new activation value. -/
noncomputable def dotProd (A B : List CNeuron) : List CNeuron :=
  mapWithIndex (fun i b =>
    { b with value :=
        applySigmoidFunction (A.foldl (fun acc a => acc + a.getWeight i * a.value) 0) }) B

/-- The fixed learning rate of `backPropagate`. -/
noncomputable def learningRate : ℝ := 0.1

/-- Hard-coded scratch-buffer extents of `backPropagate`. -/
def numNeuronsInputLayer : ℕ := 784

/-- Hard-coded hidden-layer extent of `backPropagate`'s scratch buffers. -/
def numNeuronsHiddenLayer : ℕ := 60

/-- Hard-coded output-layer extent of `backPropagate`'s scratch buffers. -/
def numNeuronsOutputLayer : ℕ := 10

/-- `DeltaWjk[i][j]` of `backPropagate`:
`learningRate * resultErrorRate[j] * vpLayerB[i]->getNodeValue()`,
computed from layer B's activation before any weight is modified. -/
noncomputable def hiddenOutGrad (err : List ℝ) (b : CNeuron) (j : ℕ) : ℝ :=
  learningRate * err.getD j 0 * b.value

/-- `DeltaJ[i]` of `backPropagate`: the output error pulled back through
the (pre-update) hidden-to-output weights, times `s * (1 - s)` where `s`
is the sigmoid applied again to the stored activation of hidden neuron
`i`. -/
noncomputable def hiddenDelta (B : List CNeuron) (Clen : ℕ) (err : List ℝ) (i : ℕ) : ℝ :=
  let b := B.getD i default
  let nodeVal := (List.range Clen).foldl (fun acc j => acc + b.getWeight j * err.getD j 0) 0
  let s := applySigmoidFunction b.value
  nodeVal * s * (1 - s)

/-- `backPropagate(vpLayerA, vpLayerB, vpLayerC, resultErrorRate)`.
Loop 1 fills `DeltaJ` and `DeltaWjk` from the unmodified layers; loop 2
adds `learningRate * DeltaJ[j] * vpLayerA[i]->getNodeValue()` to each
input-to-hidden weight `j < |B|`; loop 3 adds `DeltaWjk[i][j]` to each
hidden-to-output weight `j < |C|`.  Layer C is only read.  The function
returns the three layers after the call. -/
noncomputable def backPropagate (A B C : List CNeuron) (err : List ℝ) :
    List CNeuron × List CNeuron × List CNeuron :=
  let A' := mapWithIndex (fun _i a =>
    { a with weights := mapWithIndex (fun j w =>
        if j < B.length then w + learningRate * hiddenDelta B C.length err j * a.value
        else w) a.weights }) A
  let B' := mapWithIndex (fun _i b =>
    { b with weights := mapWithIndex (fun j w =>
        if j < C.length then w + hiddenOutGrad err b j
        else w) b.weights }) B
  (A', B', C)

/-- The caller-side error computation of the training loop:
`resultErrorRate[i] = (trainDataDigit[k] == i ? 1 : 0) - vpOutputLayer[i]->getNodeValue()`. -/
noncomputable def computeErrorRate (label : ℕ) (Cs : List CNeuron) : List ℝ :=
  mapWithIndex (fun i c => (if label = i then (1 : ℝ) else 0) - c.value) Cs

/-- One step of the prediction scan of the test loop:
`if (allPredictionsforDigits[i] >= maxAccuracy) { maxAccuracy = ...; number = i; }`. -/
noncomputable def argmaxStep (preds : List ℝ) (acc : ℝ × ℕ) (i : ℕ) : ℝ × ℕ :=
  if preds.getD i 0 ≥ acc.1 then (preds.getD i 0, i) else acc

/-- The prediction scan of the test loop, starting from
`maxAccuracy = 0` and index `0`. -/
noncomputable def argmaxScan (preds : List ℝ) : ℝ × ℕ :=
  (List.range preds.length).foldl (argmaxStep preds) (0, 0)

/-- The predicted class (`number`) after the prediction scan. -/
noncomputable def predictClass (preds : List ℝ) : ℕ :=
  (argmaxScan preds).2

/-- Every scratch-buffer index access performed by `backPropagate` is in
bounds: loop 1 writes `DeltaWjk[i][j]` (`i < 60`, `j < 10`) and
`DeltaJ[i]` (`i < 60`); loop 2 writes `DeltaWik[i][j]` (`i < 784`,
`j < 60`) and reads `DeltaJ[j]` (`j < 60`); loop 3 reads
`DeltaWjk[i][j]` (`i < 60`, `j < 10`). -/
def bpScratchAccessInBounds (A B C : List CNeuron) : Prop :=
  (∀ i < B.length,
      (∀ j < C.length, i < numNeuronsHiddenLayer ∧ j < numNeuronsOutputLayer) ∧
      i < numNeuronsHiddenLayer) ∧
  (∀ i < A.length, ∀ j < B.length,
      (i < numNeuronsInputLayer ∧ j < numNeuronsHiddenLayer) ∧ j < numNeuronsHiddenLayer) ∧
  (∀ i < B.length, ∀ j < C.length,
      i < numNeuronsHiddenLayer ∧ j < numNeuronsOutputLayer)

/-- Modelled from the spec: the body of `std::uniform_int_distribution`
is standard-library code absent from the repository; `random::u` in
`modules/DGM/Random.h` forwards to it.  The spec's contract is an
integer uniformly distributed on the closed interval `[min, max]`; the
model draws from a generator state by reducing it modulo the interval
width `max - min + 1` and offsetting by `min`. -/
def uniformInt (lo hi : ℤ) (state : ℕ) : ℤ :=
  lo + (state % (hi - lo + 1).toNat : ℕ)

theorem mapIdxFrom_length (f : ℕ → α → β) (k : ℕ) (l : List α) :
    (mapIdxFrom f k l).length = l.length := by
  induction l generalizing k with
  | nil => rfl
  | cons a t ih => simp [mapIdxFrom, ih]

theorem mapWithIndex_length (f : ℕ → α → β) (l : List α) :
    (mapWithIndex f l).length = l.length :=
  mapIdxFrom_length f 0 l

theorem mapIdxFrom_getD (f : ℕ → α → β) (k : ℕ) (l : List α) (i : ℕ) (d : α) (e : β)
    (h : i < l.length) :
    (mapIdxFrom f k l).getD i e = f (k + i) (l.getD i d) := by
  induction l generalizing k i with
  | nil => simp at h
  | cons a t ih =>
    cases i with
    | zero => rfl
    | succ i =>
      have h' : i < t.length := by simpa using h
      have := ih (k + 1) i h'
      simpa [mapIdxFrom, List.getD, Nat.add_assoc, Nat.add_comm 1 i] using this

theorem mapWithIndex_getD (f : ℕ → α → β) (l : List α) (i : ℕ) (d : α) (e : β)
    (h : i < l.length) :
    (mapWithIndex f l).getD i e = f i (l.getD i d) := by
  simpa using mapIdxFrom_getD f 0 l i d e h

theorem foldl_add_eq (f : α → ℝ) (c : ℝ) (l : List α) :
    l.foldl (fun acc a => acc + f a) c = c + (l.map f).sum := by
  induction l generalizing c with
  | nil => simp
  | cons a t ih => simp [List.foldl, ih, add_assoc]

theorem sum_map_getD (f : α → ℝ) (d : α) (l : List α) :
    (l.map f).sum = ∑ i in Finset.range l.length, f (l.getD i d) := by
  induction l with
  | nil => simp
  | cons a t ih =>
    rw [List.map_cons, List.sum_cons, ih, List.length_cons, Finset.sum_range_succ']
    simp [List.getD, add_comm]

theorem range_foldl_add (g : ℕ → ℝ) (n : ℕ) :
    (List.range n).foldl (fun acc j => acc + g j) 0 = ∑ j in Finset.range n, g j := by
  rw [foldl_add_eq, zero_add]
  induction n with
  | zero => simp
  | succ n ih => rw [List.range_succ, List.map_append, List.sum_append,
      Finset.sum_range_succ, ih]; simp

theorem bp_fst_getD (A B C : List CNeuron) (err : List ℝ) (i : ℕ) (hi : i < A.length) :
    ((backPropagate A B C err).1).getD i default =
      { A.getD i default with
        weights := mapWithIndex (fun j w =>
          if j < B.length then
            w + learningRate * hiddenDelta B C.length err j * (A.getD i default).value
          else w) ((A.getD i default).weights) } := by
  unfold backPropagate
  exact mapWithIndex_getD _ A i default default hi

theorem bp_snd_getD (A B C : List CNeuron) (err : List ℝ) (i : ℕ) (hi : i < B.length) :
    ((backPropagate A B C err).2.1).getD i default =
      { B.getD i default with
        weights := mapWithIndex (fun j w =>
          if j < C.length then
            w + hiddenOutGrad err (B.getD i default) j
          else w) ((B.getD i default).weights) } := by
  unfold backPropagate
  exact mapWithIndex_getD _ B i default default hi

theorem bp_A_weight (A B C : List CNeuron) (err : List ℝ) (i j : ℕ)
    (hi : i < A.length) (hjB : j < B.length)
    (hjw : j < ((A.getD i default).weights).length) :
    (((backPropagate A B C err).1).getD i default).getWeight j =
      (A.getD i default).getWeight j +
        learningRate * hiddenDelta B C.length err j * (A.getD i default).value := by
  rw [bp_fst_getD A B C err i hi]
  show (mapWithIndex _ ((A.getD i default).weights)).getD j 0 = _
  rw [mapWithIndex_getD _ _ j 0 0 hjw, if_pos hjB]
  rfl

theorem bp_B_weight (A B C : List CNeuron) (err : List ℝ) (i j : ℕ)
    (hi : i < B.length) (hjC : j < C.length)
    (hjw : j < ((B.getD i default).weights).length) :
    (((backPropagate A B C err).2.1).getD i default).getWeight j =
      (B.getD i default).getWeight j +
        learningRate * err.getD j 0 * (B.getD i default).value := by
  rw [bp_snd_getD A B C err i hi]
  show (mapWithIndex _ ((B.getD i default).weights)).getD j 0 = _
  rw [mapWithIndex_getD _ _ j 0 0 hjw, if_pos hjC]
  rfl

/-- C1: after `dotProd(A, B)`, the activation of the neuron at index `j`
of the downstream layer equals the sigmoid of
`Σ_i A[i].weight(j) * A[i].value()` over all upstream neurons, where the
sigmoid is `1 / (1 + e^{-x})`; no other activation or weight enters the
formula. -/
theorem C1_dotProd_forward (A B : List CNeuron) (j : ℕ) (hj : j < B.length) :
    ((dotProd A B).getD j default).value =
      applySigmoidFunction
        (∑ i in Finset.range A.length,
          (A.getD i default).getWeight j * (A.getD i default).value) := by
  unfold dotProd
  rw [mapWithIndex_getD _ B j default default hj]
  show applySigmoidFunction (A.foldl _ 0) = _
  rw [foldl_add_eq (fun a => a.getWeight j * a.value) 0 A, zero_add,
    sum_map_getD (fun a => a.getWeight j * a.value) default A]

/-- Witness for C1 at the concrete upstream layer `[{value 1, weights [2]}]`
and a one-neuron downstream layer. -/
theorem C1_dotProd_forward_witness :
    0 < ([⟨(0 : ℝ), []⟩] : List CNeuron).length ∧
    ((dotProd [⟨1, [2]⟩] [⟨0, []⟩]).getD 0 default).value =
      applySigmoidFunction
        (∑ i in Finset.range ([⟨(1 : ℝ), [2]⟩] : List CNeuron).length,
          (([⟨(1 : ℝ), [2]⟩] : List CNeuron).getD i default).getWeight 0 *
            (([⟨(1 : ℝ), [2]⟩] : List CNeuron).getD i default).value) :=
  ⟨by simp, C1_dotProd_forward [⟨1, [2]⟩] [⟨0, []⟩] 0 (by simp)⟩

/-- C2: the hidden-layer delta of `backPropagate` equals the output error
pulled back through the pre-update hidden-to-output weights,
`Σ_k B[i].weight(k) * err[k]`, times `s * (1 - s)` where `s` is the
sigmoid applied again to the stored (already post-sigmoid) activation
`B[i].value()` — the literal double application. -/
theorem C2_hiddenDelta_formula (B : List CNeuron) (Clen : ℕ) (err : List ℝ) (i : ℕ) :
    hiddenDelta B Clen err i =
      (∑ k in Finset.range Clen, (B.getD i default).getWeight k * err.getD k 0) *
        applySigmoidFunction ((B.getD i default).value) *
        (1 - applySigmoidFunction ((B.getD i default).value)) := by
  show (List.range Clen).foldl
      (fun acc j => acc + (B.getD i default).getWeight j * err.getD j 0) 0 *
      applySigmoidFunction ((B.getD i default).value) *
      (1 - applySigmoidFunction ((B.getD i default).value)) = _
  rw [range_foldl_add]

/-- C4: the error vector computed by the training loop after the forward
pass satisfies `err[k] = (t == k ? 1 : 0) - output[k].value()`: a one-hot
target minus the network's current output activations. -/
theorem C4_outputError_onehot (t : ℕ) (B C : List CNeuron) (k : ℕ) (hk : k < C.length) :
    (computeErrorRate t (dotProd B C)).getD k 0 =
      (if t = k then (1 : ℝ) else 0) - ((dotProd B C).getD k default).value := by
  have hlen : k < (dotProd B C).length := by
    unfold dotProd; rw [mapWithIndex_length]; exact hk
  unfold computeErrorRate
  rw [mapWithIndex_getD _ _ k default 0 hlen]

/-- Witness for C4 at target class `0` and a one-neuron output layer. -/
theorem C4_outputError_onehot_witness :
    0 < ([⟨(0 : ℝ), []⟩] : List CNeuron).length ∧
    (computeErrorRate 0 (dotProd [] [⟨0, []⟩])).getD 0 0 =
      (if 0 = 0 then (1 : ℝ) else 0) - ((dotProd [] [⟨0, []⟩]).getD 0 default).value :=
  ⟨by simp, C4_outputError_onehot 0 [] [⟨0, []⟩] 0 (by simp)⟩

/-- C6: the sigmoid satisfies `sigmoid(0) = 1/2`, is strictly increasing,
and its value lies strictly between `0` and `1` for every real input. -/
theorem C6_sigmoid :
    applySigmoidFunction 0 = 1 / 2 ∧
    (∀ x y : ℝ, x < y → applySigmoidFunction x < applySigmoidFunction y) ∧
    (∀ x : ℝ, 0 < applySigmoidFunction x ∧ applySigmoidFunction x < 1) := by
  have hpos : ∀ x : ℝ, 0 < 1 + Real.exp (-x) := fun x => by positivity
  refine ⟨?_, ?_, ?_⟩
  · unfold applySigmoidFunction
    rw [neg_zero, Real.exp_zero]
    norm_num
  · intro x y hxy
    unfold applySigmoidFunction
    have h1 : Real.exp (-y) < Real.exp (-x) := Real.exp_lt_exp.mpr (by linarith)
    exact one_div_lt_one_div_of_lt (hpos y) (by linarith)
  · intro x
    unfold applySigmoidFunction
    constructor
    · positivity
    · rw [div_lt_one (hpos x)]
      have := Real.exp_pos (-x)
      linarith

/-- Witness for C6's monotonicity at the concrete pair `0 < 1`. -/
theorem C6_sigmoid_witness :
    (0 : ℝ) < 1 ∧ applySigmoidFunction 0 < applySigmoidFunction 1 :=
  ⟨by norm_num, C6_sigmoid.2.1 0 1 (by norm_num)⟩

theorem bp_fst_length (A B C : List CNeuron) (err : List ℝ) :
    ((backPropagate A B C err).1).length = A.length :=
  mapWithIndex_length _ A

theorem bp_snd_length (A B C : List CNeuron) (err : List ℝ) :
    ((backPropagate A B C err).2.1).length = B.length :=
  mapWithIndex_length _ B

theorem bp_fst_value (A B C : List CNeuron) (err : List ℝ) (i : ℕ) :
    (((backPropagate A B C err).1).getD i default).value = (A.getD i default).value := by
  by_cases hi : i < A.length
  · rw [bp_fst_getD A B C err i hi]
  · have h1 : A.length ≤ i := le_of_not_lt hi
    have h2 : ((backPropagate A B C err).1).length ≤ i := by
      rw [bp_fst_length]; exact h1
    rw [List.getD_eq_default _ _ h2, List.getD_eq_default _ _ h1]

theorem bp_snd_value (A B C : List CNeuron) (err : List ℝ) (i : ℕ) :
    (((backPropagate A B C err).2.1).getD i default).value = (B.getD i default).value := by
  by_cases hi : i < B.length
  · rw [bp_snd_getD A B C err i hi]
  · have h1 : B.length ≤ i := le_of_not_lt hi
    have h2 : ((backPropagate A B C err).2.1).length ≤ i := by
      rw [bp_snd_length]; exact h1
    rw [List.getD_eq_default _ _ h2, List.getD_eq_default _ _ h1]

theorem bp_fst_row_length (A B C : List CNeuron) (err : List ℝ) (i : ℕ) :
    ((((backPropagate A B C err).1).getD i default).weights).length =
      ((A.getD i default).weights).length := by
  by_cases hi : i < A.length
  · rw [bp_fst_getD A B C err i hi]
    exact mapWithIndex_length _ _
  · have h1 : A.length ≤ i := le_of_not_lt hi
    have h2 : ((backPropagate A B C err).1).length ≤ i := by
      rw [bp_fst_length]; exact h1
    rw [List.getD_eq_default _ _ h2, List.getD_eq_default _ _ h1]

theorem bp_snd_row_length (A B C : List CNeuron) (err : List ℝ) (i : ℕ) :
    ((((backPropagate A B C err).2.1).getD i default).weights).length =
      ((B.getD i default).weights).length := by
  by_cases hi : i < B.length
  · rw [bp_snd_getD A B C err i hi]
    exact mapWithIndex_length _ _
  · have h1 : B.length ≤ i := le_of_not_lt hi
    have h2 : ((backPropagate A B C err).2.1).length ≤ i := by
      rw [bp_snd_length]; exact h1
    rw [List.getD_eq_default _ _ h2, List.getD_eq_default _ _ h1]

/-- C3: after one `backPropagate` call, every input-to-hidden weight
equals its old value plus `learningRate * delta[j] * input[i].value()`,
and every hidden-to-output weight equals its old value plus
`learningRate * outputError[j] * hidden[i].value()`; the deltas and
gradients are those computed from the pre-update weights and original
activations (the right-hand sides only mention the input layers). -/
theorem C3_weight_updates (A B C : List CNeuron) (err : List ℝ) :
    (∀ i j, i < A.length → j < B.length → j < ((A.getD i default).weights).length →
      (((backPropagate A B C err).1).getD i default).getWeight j =
        (A.getD i default).getWeight j +
          learningRate * hiddenDelta B C.length err j * (A.getD i default).value) ∧
    (∀ i j, i < B.length → j < C.length → j < ((B.getD i default).weights).length →
      (((backPropagate A B C err).2.1).getD i default).getWeight j =
        (B.getD i default).getWeight j +
          learningRate * err.getD j 0 * (B.getD i default).value) :=
  ⟨fun i j hi hj hw => bp_A_weight A B C err i j hi hj hw,
   fun i j hi hj hw => bp_B_weight A B C err i j hi hj hw⟩

/-- Witness for C3 at input layer `[{1, [2]}]`, hidden layer `[{3, [4]}]`,
output layer `[{0, []}]` and error vector `[1]`. -/
theorem C3_weight_updates_witness :
    (0 < ([⟨(1 : ℝ), [2]⟩] : List CNeuron).length ∧
     0 < ([⟨(3 : ℝ), [4]⟩] : List CNeuron).length ∧
     0 < ((([⟨(1 : ℝ), [2]⟩] : List CNeuron).getD 0 default).weights).length ∧
     (((backPropagate [⟨1, [2]⟩] [⟨3, [4]⟩] [⟨0, []⟩] [1]).1).getD 0 default).getWeight 0 =
       (([⟨(1 : ℝ), [2]⟩] : List CNeuron).getD 0 default).getWeight 0 +
         learningRate *
           hiddenDelta [⟨3, [4]⟩] ([⟨(0 : ℝ), []⟩] : List CNeuron).length [1] 0 *
           (([⟨(1 : ℝ), [2]⟩] : List CNeuron).getD 0 default).value) ∧
    (0 < ([⟨(0 : ℝ), []⟩] : List CNeuron).length ∧
     0 < ((([⟨(3 : ℝ), [4]⟩] : List CNeuron).getD 0 default).weights).length ∧
     (((backPropagate [⟨1, [2]⟩] [⟨3, [4]⟩] [⟨0, []⟩] [1]).2.1).getD 0 default).getWeight 0 =
       (([⟨(3 : ℝ), [4]⟩] : List CNeuron).getD 0 default).getWeight 0 +
         learningRate * (([1] : List ℝ).getD 0 0) *
           (([⟨(3 : ℝ), [4]⟩] : List CNeuron).getD 0 default).value) :=
  ⟨⟨by simp, by simp, by simp [List.getD],
    (C3_weight_updates [⟨1, [2]⟩] [⟨3, [4]⟩] [⟨0, []⟩] [1]).1 0 0
      (by simp) (by simp) (by simp [List.getD])⟩,
   ⟨by simp, by simp [List.getD],
    (C3_weight_updates [⟨1, [2]⟩] [⟨3, [4]⟩] [⟨0, []⟩] [1]).2 0 0
      (by simp) (by simp) (by simp [List.getD])⟩⟩

/-- C9: `backPropagate` leaves every activation value of the three layers
unchanged and returns the output layer entirely unchanged; layer lengths
and weight-row lengths are also preserved, so the only mutated state is
the weight entries of the input and hidden layers. -/
theorem C9_backPropagate_frame (A B C : List CNeuron) (err : List ℝ) :
    (backPropagate A B C err).2.2 = C ∧
    ((backPropagate A B C err).1).length = A.length ∧
    ((backPropagate A B C err).2.1).length = B.length ∧
    (∀ i, (((backPropagate A B C err).1).getD i default).value =
      (A.getD i default).value) ∧
    (∀ i, (((backPropagate A B C err).2.1).getD i default).value =
      (B.getD i default).value) ∧
    (∀ i, ((((backPropagate A B C err).1).getD i default).weights).length =
      ((A.getD i default).weights).length) ∧
    (∀ i, ((((backPropagate A B C err).2.1).getD i default).weights).length =
      ((B.getD i default).weights).length) :=
  ⟨rfl, bp_fst_length A B C err, bp_snd_length A B C err,
   fun i => bp_fst_value A B C err i, fun i => bp_snd_value A B C err i,
   fun i => bp_fst_row_length A B C err i, fun i => bp_snd_row_length A B C err i⟩

/-- C7 fails as stated: with `outputError[0] = 1 > 0` and the (non-negative)
hidden activation `0`, the hidden-to-output weight `5` is left exactly at
`5` by `backPropagate` — not strictly increased. -/
theorem C7_counterexample :
    (0 : ℝ) < ([1] : List ℝ).getD 0 0 ∧
    0 ≤ (([⟨(0 : ℝ), [5]⟩] : List CNeuron).getD 0 default).value ∧
    ¬ ((([⟨(0 : ℝ), [5]⟩] : List CNeuron).getD 0 default).getWeight 0 <
        (((backPropagate [] [⟨0, [5]⟩] [⟨0, []⟩] [1]).2.1).getD 0 default).getWeight 0) := by
  refine ⟨by simp [List.getD], by simp [List.getD], ?_⟩
  rw [bp_B_weight [] [⟨0, [5]⟩] [⟨0, []⟩] [1] 0 0 (by simp) (by simp) (by simp [List.getD])]
  simp [List.getD]

/-- C7 amended: if `outputError[k] > 0` and the hidden activations are
strictly positive, every hidden-to-output weight feeding output neuron
`k` is strictly increased by `backPropagate` (with activation exactly `0`
the weight is merely unchanged, so non-negativity is not enough). -/
theorem C7_weight_increase (A B C : List CNeuron) (err : List ℝ) (k : ℕ)
    (hk : k < C.length) (hpos : 0 < err.getD k 0) (i : ℕ) (hi : i < B.length)
    (hval : 0 < (B.getD i default).value)
    (hw : k < ((B.getD i default).weights).length) :
    (B.getD i default).getWeight k <
      (((backPropagate A B C err).2.1).getD i default).getWeight k := by
  rw [bp_B_weight A B C err i k hi hk hw]
  have hlr : (0 : ℝ) < learningRate := by unfold learningRate; norm_num
  have hprod : 0 < learningRate * err.getD k 0 * (B.getD i default).value :=
    mul_pos (mul_pos hlr hpos) hval
  linarith

/-- Witness for the amended C7 at hidden activation `3 > 0` and output
error `1 > 0`. -/
theorem C7_weight_increase_witness :
    0 < ([⟨(0 : ℝ), []⟩] : List CNeuron).length ∧
    (0 : ℝ) < ([1] : List ℝ).getD 0 0 ∧
    0 < ([⟨(3 : ℝ), [4]⟩] : List CNeuron).length ∧
    (0 : ℝ) < (([⟨(3 : ℝ), [4]⟩] : List CNeuron).getD 0 default).value ∧
    0 < ((([⟨(3 : ℝ), [4]⟩] : List CNeuron).getD 0 default).weights).length ∧
    (([⟨(3 : ℝ), [4]⟩] : List CNeuron).getD 0 default).getWeight 0 <
      (((backPropagate [] [⟨3, [4]⟩] [⟨0, []⟩] [1]).2.1).getD 0 default).getWeight 0 :=
  ⟨by simp, by simp [List.getD], by simp, by simp [List.getD], by simp [List.getD],
   C7_weight_increase [] [⟨3, [4]⟩] [⟨0, []⟩] [1] 0 (by simp)
     (by simp [List.getD]) 0 (by simp) (by simp [List.getD]) (by simp [List.getD])⟩

theorem predictClass_concrete : predictClass [0.5, 0.9, 0.9, 0.1] = 2 := by
  unfold predictClass argmaxScan
  norm_num [argmaxStep, List.getD, List.foldl,
    show List.range 4 = [0, 1, 2, 3] from rfl]

/-- C5 fails as stated: on the output activations `[0.5, 0.9, 0.9, 0.1]`
the prediction scan does not return index `1` (the `>=` comparison lets
the later equal value at index `2` overwrite the stored index). -/
theorem C5_argmax_counterexample :
    predictClass [0.5, 0.9, 0.9, 0.1] ≠ 1 := by
  rw [predictClass_concrete]
  decide

/-- C5 amended: the prediction scan keeps the *last* index whose value
attains the running maximum: for `[0.5, 0.9, 0.9, 0.1]` the predicted
class is `2`, and a later value equal to the current maximum always
overwrites the stored index (the scan compares with `>=`). -/
theorem C5_argmax_last_max :
    predictClass [0.5, 0.9, 0.9, 0.1] = 2 ∧
    (∀ (preds : List ℝ) (n i : ℕ),
      argmaxStep preds (preds.getD i 0, n) i = (preds.getD i 0, i)) := by
  refine ⟨predictClass_concrete, ?_⟩
  intro preds n i
  unfold argmaxStep
  rw [if_pos (le_refl _)]

/-- C8: for `min <= max` the modelled `uniformInt` stays in the closed
interval `[min, max]` for every generator state, and `uniformInt(5, 5)`
always returns `5`. -/
theorem C8_uniformInt_range (lo hi : ℤ) (s : ℕ) (h : lo ≤ hi) :
    (lo ≤ uniformInt lo hi s ∧ uniformInt lo hi s ≤ hi) ∧
    (∀ s' : ℕ, uniformInt 5 5 s' = 5) := by
  constructor
  · unfold uniformInt
    have h1 : s % (hi - lo + 1).toNat < (hi - lo + 1).toNat :=
      Nat.mod_lt _ (by omega)
    omega
  · intro s'
    unfold uniformInt
    norm_num

/-- Witness for C8 at the concrete interval `[3, 7]` and state `12`. -/
theorem C8_uniformInt_range_witness :
    (3 : ℤ) ≤ 7 ∧
    ((3 ≤ uniformInt 3 7 12 ∧ uniformInt 3 7 12 ≤ 7) ∧
      (∀ s' : ℕ, uniformInt 5 5 s' = 5)) :=
  ⟨by decide, C8_uniformInt_range 3 7 12 (by decide)⟩

/-- C10 fails as an equivalence: with an empty hidden layer no scratch
index is ever formed, so every access is (vacuously) in bounds even for
an input layer of 785 neurons, where the claimed precondition is false. -/
theorem C10_counterexample :
    bpScratchAccessInBounds (List.replicate 785 ⟨0, []⟩) [] [] ∧
    ¬ ((List.replicate 785 (⟨0, []⟩ : CNeuron)).length ≤ numNeuronsInputLayer ∧
       ([] : List CNeuron).length ≤ numNeuronsHiddenLayer ∧
       ([] : List CNeuron).length ≤ numNeuronsOutputLayer) := by
  constructor
  · exact ⟨fun i hi => absurd hi (Nat.not_lt_zero i),
           fun i _ j hj => absurd hj (Nat.not_lt_zero j),
           fun i hi => absurd hi (Nat.not_lt_zero i)⟩
  · intro hcon
    have hlen := hcon.1
    rw [List.length_replicate] at hlen
    exact absurd hlen (by decide)

/-- C10 amended: the precondition `|A| <= 784, |B| <= 60, |C| <= 10`
always makes every scratch access of `backPropagate` in bounds, and the
converse (hence the equivalence) holds whenever the hidden layer is
nonempty; an empty hidden layer makes all accesses vacuously in bounds. -/
theorem C10_scratch_bounds :
    (∀ A B C : List CNeuron,
      A.length ≤ numNeuronsInputLayer → B.length ≤ numNeuronsHiddenLayer →
      C.length ≤ numNeuronsOutputLayer → bpScratchAccessInBounds A B C) ∧
    (∀ A B C : List CNeuron, B ≠ [] →
      (bpScratchAccessInBounds A B C ↔
        (A.length ≤ numNeuronsInputLayer ∧ B.length ≤ numNeuronsHiddenLayer ∧
         C.length ≤ numNeuronsOutputLayer))) := by
  have hsafe : ∀ A B C : List CNeuron,
      A.length ≤ numNeuronsInputLayer → B.length ≤ numNeuronsHiddenLayer →
      C.length ≤ numNeuronsOutputLayer → bpScratchAccessInBounds A B C := by
    intro A B C hA hB hC
    simp only [numNeuronsInputLayer, numNeuronsHiddenLayer, numNeuronsOutputLayer] at hA hB hC
    unfold bpScratchAccessInBounds numNeuronsInputLayer numNeuronsHiddenLayer
      numNeuronsOutputLayer
    refine ⟨fun i hi => ⟨fun j hj => ⟨by omega, by omega⟩, by omega⟩,
            fun i hi j hj => ⟨⟨by omega, by omega⟩, by omega⟩,
            fun i hi j hj => ⟨by omega, by omega⟩⟩
  refine ⟨hsafe, fun A B C hne => ⟨?_, fun hpre => hsafe A B C hpre.1 hpre.2.1 hpre.2.2⟩⟩
  intro hs
  have hBpos : 0 < B.length := List.length_pos.mpr hne
  obtain ⟨h1, h2, h3⟩ := hs
  simp only [numNeuronsInputLayer, numNeuronsHiddenLayer, numNeuronsOutputLayer] at h1 h2 h3 ⊢
  refine ⟨?_, ?_, ?_⟩
  · by_contra hA
    exact absurd ((h2 784 (by omega) 0 hBpos).1).1 (by omega)
  · by_contra hB
    exact absurd (h1 60 (by omega)).2 (by omega)
  · by_contra hC
    exact absurd (((h1 0 hBpos).1 10 (by omega)).2) (by omega)

/-- Witness for the amended C10: the safety direction at three empty
layers and the equivalence at a one-neuron hidden layer. -/
theorem C10_scratch_bounds_witness :
    (([] : List CNeuron).length ≤ numNeuronsInputLayer ∧
     ([] : List CNeuron).length ≤ numNeuronsHiddenLayer ∧
     ([] : List CNeuron).length ≤ numNeuronsOutputLayer ∧
     bpScratchAccessInBounds [] [] []) ∧
    (([⟨0, []⟩] : List CNeuron) ≠ [] ∧
     (bpScratchAccessInBounds [] [⟨0, []⟩] [] ↔
       (([] : List CNeuron).length ≤ numNeuronsInputLayer ∧
        ([⟨0, []⟩] : List CNeuron).length ≤ numNeuronsHiddenLayer ∧
        ([] : List CNeuron).length ≤ numNeuronsOutputLayer))) :=
  ⟨⟨by simp [numNeuronsInputLayer], by simp [numNeuronsHiddenLayer],
    by simp [numNeuronsOutputLayer],
    C10_scratch_bounds.1 [] [] [] (by simp [numNeuronsInputLayer])
      (by simp [numNeuronsHiddenLayer]) (by simp [numNeuronsOutputLayer])⟩,
   ⟨by simp, C10_scratch_bounds.2 [] [⟨0, []⟩] [] (by simp)⟩⟩
